import Mathlib

/-!
Verification of the `img-compress` upload pipeline against `src/index.ts`.

Shallow embedding conventions:
* byte buffers are `List Nat` (one `Nat` per byte);
* Node's `path.resolve` is modelled for POSIX paths, with the process working
  directory and the module directory (`__dirname`) passed in an `Env`;
* the `sharp` image codec is an external collaborator and enters as a
  parameter (`Sharp`) whose fields mirror exactly the four call shapes the
  source uses;
* `moment().unix()` (the current Unix time, second resolution) is the
  parameter `ts`, held constant during one request;
* the multer middleware (`.any()` with memory storage) decodes the request
  into a list of file parts; its acceptance gate is the bound `fileFilter`,
  and a filter rejection aborts the request with the filter's error object
  before the handler body runs;
* stateful code is modelled functionally: `processImage` and `uploadFiles`
  return the records they push together with the log of
  `(destination, bytes)` filesystem writes they perform.
-/

namespace ImgCompress

abbrev Buffer := List Nat

abbrev Seg := List Char

/-- Split a character list at every occurrence of `sep`, keeping empty pieces:
the behaviour of JS `String.split` for a one-character separator. The
accumulator holds the current piece reversed. -/
def splitChar (sep : Char) : List Char → List Char → List (List Char)
  | [], acc => [acc.reverse]
  | c :: rest, acc =>
    if c = sep then acc.reverse :: splitChar sep rest []
    else splitChar sep rest (c :: acc)

/-- The nonempty segments of a POSIX path string. -/
def pathSegs (s : String) : List Seg :=
  (splitChar '/' s.toList []).filter (fun seg => seg ≠ [])

/-- Whether a POSIX path string is absolute. -/
def isAbs (s : String) : Bool :=
  match s.toList with
  | '/' :: _ => true
  | _ => false

/-- One step of POSIX path normalisation: `.` is dropped, `..` removes the
segment before it (and is a no-op at the root), anything else is kept. -/
def normStep (acc : List Seg) (seg : Seg) : List Seg :=
  if seg = ['.'] then acc
  else if seg = ['.', '.'] then acc.dropLast
  else acc ++ [seg]

def normSegs (segs : List Seg) : List Seg := segs.foldl normStep []

/-- The argument chain `path.resolve` actually uses: arguments are prepended
right-to-left until an absolute one is reached, the working directory
standing in when none is; equivalently, a left fold that restarts the chain
at every absolute argument. -/
def absChain (cwd : String) (ps : List String) : List String :=
  ps.foldl (fun acc p => if isAbs p then [p] else acc ++ [p]) [cwd]

def joinSlash : List Seg → List Char
  | [] => []
  | [seg] => seg
  | seg :: rest => seg ++ '/' :: joinSlash rest

def renderAbs (segs : List Seg) : String := String.mk ('/' :: joinSlash segs)

/-- Model of Node `path.resolve(p1, ..., pn)` on POSIX paths, `cwd` being the
process working directory (assumed absolute): keep the chain from the last
absolute argument on, normalise its segments and render the absolute result. -/
def resolvePaths (cwd : String) (ps : List String) : String :=
  renderAbs (normSegs ((absChain cwd ps).map pathSegs).flatten)

/-- The options object supplied by the caller (TS interface `UploadOptions`);
`none` models an absent or `undefined` field. -/
structure UploadOptionsIn where
  fileCompression : Option Bool := none
  fileResizeRatio : Option (List (Nat × Nat)) := none
  allowExtension : Option (List String) := none
  imageQuality : Option Nat := none
  localPath : Option String := none
  basePath : Option String := none

/-- The options record stored on the `UploadManager` instance. -/
structure UploadOptions where
  fileCompression : Bool
  fileResizeRatio : Option (List (Nat × Nat))
  allowExtension : Option (List String)
  imageQuality : Nat
  basePath : String
  localPath : String

/-- JS `v || d` for a string-valued option: the empty string is falsy. -/
def orFalsyStr (v : Option String) (d : String) : String :=
  match v with
  | none => d
  | some s => if s = "" then d else s

/-- The constructor's option normalisation (src/index.ts lines 47-55).
`fileResizeRatio || null` and `allowExtension || null` keep any supplied
array, the empty array included, since every array is truthy in JS;
`imageQuality ?? 80` keeps any supplied number, `0` included (nullish
coalescing, not truthiness); `basePath || process.cwd()` and
`localPath || "../public"` treat the empty string as absent. -/
def mkOptions (o : UploadOptionsIn) (cwd : String) : UploadOptions :=
  { fileCompression := o.fileCompression.getD false
    fileResizeRatio := o.fileResizeRatio
    allowExtension := o.allowExtension
    imageQuality := o.imageQuality.getD 80
    basePath := orFalsyStr o.basePath cwd
    localPath := orFalsyStr o.localPath "../public" }

/-- A decoded multipart file part (multer memory storage). -/
structure MulterFile where
  fieldname : String
  originalname : String
  encoding : String
  mimetype : String
  buffer : Buffer
deriving DecidableEq

/-- The error object `fileFilter` rejects with: `{ data: {}, code: 400 }`,
the empty object modelled as an empty key-value list. -/
structure ErrResult where
  data : List (String × String)
  code : Nat
deriving DecidableEq

/-- `leadMatch p s`: the pattern `p` matches at the start of `s`. -/
def leadMatch : List Char → List Char → Bool
  | [], _ => true
  | _ :: _, [] => false
  | a :: as, b :: bs => if a = b then leadMatch as bs else false

/-- `subMatch p s`: the pattern `p` occurs somewhere inside `s`. -/
def subMatch (p : List Char) : List Char → Bool
  | [] => leadMatch p []
  | c :: rest => leadMatch p (c :: rest) || subMatch p rest

/-- `new RegExp("(" + pats.join("|") + ")").test s` for metacharacter-free
alternatives: some alternative occurs as a substring of `s`; the empty
alternation `()` built from an empty list matches every string. -/
def regexOrTest (pats : List String) (s : String) : Bool :=
  pats.isEmpty || pats.any (fun p => subMatch p.toList s.toList)

def defaultExtensions : List String := ["jpeg", "jpg", "png"]

/-- `name.split(".").pop() ?? " "`: the last dot-separated piece of the name
(`split` always yields at least one piece, so the `?? " "` default is inert). -/
def extPart (name : String) : String :=
  String.mk ((splitChar '.' name.toList []).getLastD [' '])

/-- `fileFilter` (src/index.ts lines 62-74): build one OR-pattern from the
allow-list (default `["jpeg","jpg","png"]` when the stored list is `null`),
test it against the last dot-separated piece of the original name and against
the MIME string, and accept when either test passes. -/
def fileFilter (opts : UploadOptions) (file : MulterFile) : Except ErrResult Unit :=
  let extensions := opts.allowExtension.getD defaultExtensions
  let extname := regexOrTest extensions (extPart file.originalname)
  let mimetype := regexOrTest extensions file.mimetype
  if mimetype || extname then Except.ok () else Except.error { data := [], code := 400 }

def fileFilterAccepts (opts : UploadOptions) (file : MulterFile) : Bool :=
  match fileFilter opts file with
  | Except.ok _ => true
  | Except.error _ => false

/-- The `sharp` image codec, an external collaborator; the fields mirror the
four call shapes in the source:
`resize buf (w, h)` is `sharp(buf).resize({width, height}).toBuffer()`;
`jpeg buf q` is `sharp(buf).jpeg({quality: q}).toBuffer()`;
`resizeJpeg buf (w, h) q` is `sharp(buf).resize({width, height}).jpeg({quality: q}).toBuffer()`;
`toFileBytes buf dest` gives the bytes `sharp(buf).toFile(dest)` writes at
`dest` — sharp infers the output format from the destination's extension and
re-encodes, so these bytes are codec-dependent and in general differ from
`buf`. -/
structure Sharp where
  resize : Buffer → Nat × Nat → Buffer
  jpeg : Buffer → Nat → Buffer
  resizeJpeg : Buffer → Nat × Nat → Nat → Buffer
  toFileBytes : Buffer → String → Buffer

/-- `compressAndResizeImage` (lines 75-92), functionally: the transformed
buffer the method stores back into `file.buffer` and returns. -/
def compressAndResizeImage (s : Sharp) (buf : Buffer) (size : Nat × Nat)
    (imageQuality : Nat) : Buffer :=
  s.resizeJpeg buf size imageQuality

/-- `compressImage` (lines 108-119), functionally. -/
def compressImage (s : Sharp) (buf : Buffer) (imageQuality : Nat) : Buffer :=
  s.jpeg buf imageQuality

/-- `resizeImage` (lines 121-135), functionally. -/
def resizeImage (s : Sharp) (buf : Buffer) (size : Nat × Nat) : Buffer :=
  s.resize buf size

/-- TS interface `FileData`: one output record. -/
structure FileData where
  fieldname : String
  originalname : String
  encoding : String
  mimetype : String
  filename : String
  destination : String
deriving DecidableEq

/-- Ambient process facts: the working directory and the compiled module's
directory (`__dirname`). -/
structure Env where
  cwd : String
  dirname : String

/-- The log of filesystem writes: `(destination, bytes)` pairs. -/
abbrev WriteLog := List (String × Buffer)

/-- The per-ratio derivative name template
`` `${fieldname}_${width}x${height}_${moment().unix()}.jpeg` ``. -/
def ratioFileName (field : String) (w h ts : Nat) : String :=
  field ++ "_" ++ toString w ++ "x" ++ toString h ++ "_" ++ toString ts ++ ".jpeg"

/-- The single-derivative name template `` `${fieldname}_${moment().unix()}.jpeg` ``. -/
def singleFileName (field : String) (ts : Nat) : String :=
  field ++ "_" ++ toString ts ++ ".jpeg"

/-- The destination both resize loops compute (lines 171-175 and 201-205):
`path.resolve(__dirname, path.resolve(__dirname, localPath), fileName)`. -/
def resizeDest (env : Env) (opts : UploadOptions) (fileName : String) : String :=
  resolvePaths env.cwd
    [env.dirname, resolvePaths env.cwd [env.dirname, opts.localPath], fileName]

/-- The record pushed for the current file: a fresh object copying the file's
fields plus the current name and destination. -/
def mkFileData (file : MulterFile) (filename destination : String) : FileData :=
  { fieldname := file.fieldname
    originalname := file.originalname
    encoding := file.encoding
    mimetype := file.mimetype
    filename := filename
    destination := destination }

/-- The `for (const size of fileResizeRatio)` loop of the compress-and-resize
branch (lines 163-192). Each iteration restores `file.buffer = bufferData`
before transforming, so every derivative is computed from the original bytes;
the transformed bytes are then written via `sharp(file.buffer).toFile(...)`. -/
def compressResizeLoop (opts : UploadOptions) (s : Sharp) (env : Env) (ts : Nat)
    (file : MulterFile) (bufferData : Buffer) :
    List (Nat × Nat) → List FileData × WriteLog
  | [] => ([], [])
  | (w, h) :: rest =>
    let fileName := ratioFileName file.fieldname w h ts
    let destination := resizeDest env opts fileName
    let outBuf := compressAndResizeImage s bufferData (w, h) opts.imageQuality
    let tail := compressResizeLoop opts s env ts file bufferData rest
    (mkFileData file fileName destination :: tail.1,
     (destination, s.toFileBytes outBuf destination) :: tail.2)

/-- The resize-only loop (lines 193-218), identical to the previous loop except
that the transform is `resizeImage`. -/
def resizeLoop (opts : UploadOptions) (s : Sharp) (env : Env) (ts : Nat)
    (file : MulterFile) (bufferData : Buffer) :
    List (Nat × Nat) → List FileData × WriteLog
  | [] => ([], [])
  | (w, h) :: rest =>
    let fileName := ratioFileName file.fieldname w h ts
    let destination := resizeDest env opts fileName
    let outBuf := resizeImage s bufferData (w, h)
    let tail := resizeLoop opts s env ts file bufferData rest
    (mkFileData file fileName destination :: tail.1,
     (destination, s.toFileBytes outBuf destination) :: tail.2)

/-- `processImage` (lines 150-245). The initial name and destination (lines
151-157) use `resolve(basePath, localPath, filename)`; the branch chain tests
`fileCompression && fileResizeRatio` (any array, the empty one included, is
truthy), then `fileResizeRatio != null`, then `fileCompression`. Returns the
pushed `FileData` records and the writes performed. -/
def processImage (opts : UploadOptions) (s : Sharp) (env : Env) (ts : Nat)
    (file : MulterFile) : List FileData × WriteLog :=
  let filename := singleFileName file.fieldname ts
  let destination := resolvePaths env.cwd [opts.basePath, opts.localPath, filename]
  match opts.fileResizeRatio, opts.fileCompression with
  | some sizes, true => compressResizeLoop opts s env ts file file.buffer sizes
  | some sizes, false => resizeLoop opts s env ts file file.buffer sizes
  | none, true =>
    let outBuf := compressImage s file.buffer opts.imageQuality
    ([mkFileData file filename destination],
     [(destination, s.toFileBytes outBuf destination)])
  | none, false =>
    ([mkFileData file filename destination],
     [(destination, s.toFileBytes file.buffer destination)])

/-- `file.mimetype.startsWith("image/")` (line 261). -/
def isImageFile (file : MulterFile) : Bool :=
  leadMatch "image/".toList file.mimetype.toList

/-- The name computed for a non-image part (lines 265-267),
`` `${fieldname}_${moment().unix()}.${originalname.split(".").pop()}` ``; it is
assigned to the mutable file object only and never enters the returned data. -/
def passThroughFileName (file : MulterFile) (ts : Nat) : String :=
  file.fieldname ++ "_" ++ toString ts ++ "."
    ++ String.mk ((splitChar '.' file.originalname.toList []).getLastD [])

/-- The success object `{ data, code: 200 }` the completion callback receives. -/
structure OkResult where
  data : List FileData
  code : Nat
deriving DecidableEq

/-- The `for (const file of req.files)` loop (lines 260-270): image parts
contribute their `processImage` records and writes; non-image parts contribute
nothing to the returned array and write nothing. -/
def uploadLoop (opts : UploadOptions) (s : Sharp) (env : Env) (ts : Nat) :
    List MulterFile → List FileData × WriteLog
  | [] => ([], [])
  | f :: rest =>
    let head := if isImageFile f then processImage opts s env ts f else ([], [])
    let tail := uploadLoop opts s env ts rest
    (head.1 ++ tail.1, head.2 ++ tail.2)

/-- `uploadFiles` (lines 247-277). multer's `.any()` runs the bound
`fileFilter` on every part and aborts with the filter's error object on any
rejection, in which case the handler body never runs (`callback(err)`);
otherwise the handler loops over the decoded files and the completion
callback receives `{ data, code: 200 }`. The second component is the log of
filesystem writes performed during the request. -/
def uploadFiles (opts : UploadOptions) (s : Sharp) (env : Env) (ts : Nat)
    (files : List MulterFile) : Except ErrResult OkResult × WriteLog :=
  if files.all (fun f => fileFilterAccepts opts f) then
    let r := uploadLoop opts s env ts files
    (Except.ok { data := r.1, code := 200 }, r.2)
  else
    (Except.error { data := [], code := 400 }, [])

/-- The extension-filter acceptance predicate exactly as claim C4 words it:
the OR-pattern is tested against the lowercase file extension or the MIME
string. Written from the spec's words (not from the source), to be compared
with `fileFilter`. -/
def specFilterAccepts (opts : UploadOptions) (file : MulterFile) : Bool :=
  let exts := opts.allowExtension.getD defaultExtensions
  regexOrTest exts (String.mk ((extPart file.originalname).toList.map Char.toLower))
    || regexOrTest exts file.mimetype

/-- One concrete admissible codec, used for concrete evaluations: each
operation tags the buffer, so re-encoded bytes differ from the input bytes,
as a real codec's generally do. -/
def jsharp : Sharp :=
  { resize := fun buf wh => wh.1 :: wh.2 :: buf
    jpeg := fun buf q => q :: buf
    resizeJpeg := fun buf wh q => wh.1 :: wh.2 :: q :: buf
    toFileBytes := fun buf _ => 0 :: buf }

/-! ### Properties of the path model -/

theorem isAbs_renderAbs (segs : List Seg) : isAbs (renderAbs segs) = true := rfl

theorem resolvePaths_def (cwd : String) (ps : List String) :
    resolvePaths cwd ps = renderAbs (normSegs ((absChain cwd ps).map pathSegs).flatten) := rfl

theorem splitChar_sep_notMem (sep : Char) :
    ∀ (cs acc : List Char), sep ∉ acc → ∀ seg ∈ splitChar sep cs acc, sep ∉ seg := by
  intro cs
  induction cs with
  | nil =>
    intro acc hacc seg hseg
    simp only [splitChar, List.mem_singleton] at hseg
    subst hseg
    simpa using hacc
  | cons c rest ih =>
    intro acc hacc seg hseg
    by_cases hc : c = sep
    · subst hc
      simp only [splitChar, eq_self_iff_true, if_true, List.mem_cons] at hseg
      rcases hseg with h | h
      · subst h; simpa using hacc
      · exact ih [] (by simp) seg h
    · simp only [splitChar, if_neg hc] at hseg
      refine ih (c :: acc) ?_ seg hseg
      simp only [List.mem_cons, not_or]
      exact ⟨fun h => hc h.symm, hacc⟩

theorem pathSegs_clean (s : String) : ∀ seg ∈ pathSegs s, seg ≠ [] ∧ '/' ∉ seg := by
  intro seg hseg
  unfold pathSegs at hseg
  rw [List.mem_filter] at hseg
  refine ⟨by simpa using hseg.2, ?_⟩
  exact splitChar_sep_notMem '/' s.toList [] (by simp) seg hseg.1

theorem foldl_normStep_subset :
    ∀ (L acc : List Seg) (x : Seg), x ∈ L.foldl normStep acc → x ∈ acc ∨ x ∈ L := by
  intro L
  induction L with
  | nil => intro acc x hx; exact Or.inl hx
  | cons seg rest ih =>
    intro acc x hx
    rcases ih (normStep acc seg) x hx with h | h
    · unfold normStep at h
      by_cases h1 : seg = ['.']
      · rw [if_pos h1] at h; exact Or.inl h
      · rw [if_neg h1] at h
        by_cases h2 : seg = ['.', '.']
        · rw [if_pos h2] at h
          exact Or.inl ((List.dropLast_sublist acc).subset h)
        · rw [if_neg h2] at h
          rcases List.mem_append.mp h with h | h
          · exact Or.inl h
          · simp only [List.mem_singleton] at h
            subst h
            exact Or.inr (List.mem_cons_self _ _)
    · exact Or.inr (List.mem_cons_of_mem _ h)

theorem foldl_normStep_no_dots :
    ∀ (L acc : List Seg), (∀ x ∈ acc, x ≠ ['.'] ∧ x ≠ ['.', '.']) →
      ∀ x ∈ L.foldl normStep acc, x ≠ ['.'] ∧ x ≠ ['.', '.'] := by
  intro L
  induction L with
  | nil => intro acc hacc x hx; exact hacc x hx
  | cons seg rest ih =>
    intro acc hacc x hx
    refine ih (normStep acc seg) ?_ x hx
    intro y hy
    unfold normStep at hy
    by_cases h1 : seg = ['.']
    · rw [if_pos h1] at hy; exact hacc y hy
    · rw [if_neg h1] at hy
      by_cases h2 : seg = ['.', '.']
      · rw [if_pos h2] at hy
        exact hacc y ((List.dropLast_sublist acc).subset hy)
      · rw [if_neg h2] at hy
        rcases List.mem_append.mp hy with h | h
        · exact hacc y h
        · simp only [List.mem_singleton] at h
          subst h
          exact ⟨h1, h2⟩

theorem foldl_normStep_dotfree :
    ∀ (L : List Seg), (∀ x ∈ L, x ≠ ['.'] ∧ x ≠ ['.', '.']) →
      ∀ acc, L.foldl normStep acc = acc ++ L := by
  intro L
  induction L with
  | nil => intro _ acc; simp
  | cons seg rest ih =>
    intro h acc
    have hseg := h seg (List.mem_cons_self _ _)
    have hrest : ∀ x ∈ rest, x ≠ ['.'] ∧ x ≠ ['.', '.'] :=
      fun x hx => h x (List.mem_cons_of_mem _ hx)
    simp only [List.foldl_cons]
    rw [ih hrest]
    simp [normStep, hseg.1, hseg.2]

theorem normSegs_idem (A : List Seg) : normSegs (normSegs A) = normSegs A := by
  have h := foldl_normStep_no_dots A [] (by simp)
  unfold normSegs
  rw [foldl_normStep_dotfree (A.foldl normStep []) h []]
  simp

theorem normSegs_append_left (A B : List Seg) :
    normSegs (A ++ B) = B.foldl normStep (normSegs A) := by
  unfold normSegs
  exact List.foldl_append _ _ _ _

theorem normSegs_norm_append (A B : List Seg) :
    normSegs (normSegs A ++ B) = normSegs (A ++ B) := by
  rw [normSegs_append_left, normSegs_append_left, normSegs_idem]

theorem splitChar_no_sep (sep : Char) :
    ∀ (cs acc : List Char), sep ∉ cs → splitChar sep cs acc = [acc.reverse ++ cs] := by
  intro cs
  induction cs with
  | nil => intro acc _; simp [splitChar]
  | cons c rest ih =>
    intro acc h
    have hc : ¬ c = sep := fun hcs => h (by simp [hcs])
    simp only [splitChar, if_neg hc]
    rw [ih (c :: acc) (fun hm => h (List.mem_cons_of_mem _ hm))]
    simp

theorem splitChar_sep_break (sep : Char) :
    ∀ (a cs acc : List Char), sep ∉ a →
      splitChar sep (a ++ sep :: cs) acc = (acc.reverse ++ a) :: splitChar sep cs [] := by
  intro a
  induction a with
  | nil => intro cs acc _; simp [splitChar]
  | cons x xs ih =>
    intro cs acc h
    have hx : ¬ x = sep := fun hcs => h (by simp [hcs])
    rw [List.cons_append]
    rw [show splitChar sep (x :: (xs ++ sep :: cs)) acc
          = splitChar sep (xs ++ sep :: cs) (x :: acc) by simp [splitChar, hx]]
    rw [ih cs (x :: acc) (fun hm => h (List.mem_cons_of_mem _ hm))]
    simp

theorem filter_splitChar_joinSlash :
    ∀ (N : List Seg), (∀ seg ∈ N, seg ≠ [] ∧ '/' ∉ seg) →
      (splitChar '/' (joinSlash N) []).filter (fun seg => seg ≠ []) = N := by
  intro N
  induction N with
  | nil => intro _; simp [joinSlash, splitChar]
  | cons a tail ih =>
    intro h
    have ha := h a (List.mem_cons_self _ _)
    cases tail with
    | nil =>
      rw [show joinSlash [a] = a from rfl]
      rw [splitChar_no_sep '/' a [] ha.2]
      simp [ha.1]
    | cons b rest =>
      have htail : ∀ seg ∈ b :: rest, seg ≠ [] ∧ '/' ∉ seg :=
        fun seg hs => h seg (List.mem_cons_of_mem _ hs)
      rw [show joinSlash (a :: b :: rest) = a ++ '/' :: joinSlash (b :: rest) by
        simp [joinSlash]]
      rw [splitChar_sep_break '/' a (joinSlash (b :: rest)) [] ha.2]
      simp only [List.reverse_nil, List.nil_append]
      rw [List.filter_cons_of_pos (by simpa using ha.1)]
      rw [ih htail]

theorem pathSegs_renderAbs (N : List Seg) (h : ∀ seg ∈ N, seg ≠ [] ∧ '/' ∉ seg) :
    pathSegs (renderAbs N) = N := by
  unfold pathSegs renderAbs
  rw [show (String.mk ('/' :: joinSlash N)).toList = '/' :: joinSlash N from rfl]
  rw [show splitChar '/' ('/' :: joinSlash N) [] = [] :: splitChar '/' (joinSlash N) [] by
    simp [splitChar]]
  rw [List.filter_cons_of_neg (by simp)]
  exact filter_splitChar_joinSlash N h

theorem normSegs_chain_clean (cwd : String) (ps : List String) :
    ∀ seg ∈ normSegs ((absChain cwd ps).map pathSegs).flatten, seg ≠ [] ∧ '/' ∉ seg := by
  intro seg hseg
  rcases foldl_normStep_subset _ [] seg hseg with h | h
  · simp at h
  · rcases List.mem_flatten.mp h with ⟨l, hl, hseg2⟩
    rcases List.mem_map.mp hl with ⟨p, _, rfl⟩
    exact pathSegs_clean p seg hseg2

/-- Collapsing the nested resolve of the resize branches:
`path.resolve(x, path.resolve(x, y), z)` equals `path.resolve(x, y, z)`,
because the inner result is absolute and restarts the chain. -/
theorem resolvePaths_nested (cwd d lp fn : String) :
    resolvePaths cwd [d, resolvePaths cwd [d, lp], fn] = resolvePaths cwd [d, lp, fn] := by
  have hchain2 : absChain cwd [d, lp, fn] =
      if isAbs fn = true then [fn] else absChain cwd [d, lp] ++ [fn] := by
    by_cases hfn : isAbs fn = true <;>
      simp [absChain, List.foldl, hfn]
  have hchain1 : absChain cwd [d, resolvePaths cwd [d, lp], fn] =
      if isAbs fn = true then [fn] else [resolvePaths cwd [d, lp], fn] := by
    by_cases hfn : isAbs fn = true <;>
      simp [absChain, List.foldl, resolvePaths_def, isAbs_renderAbs, hfn]
  by_cases hfn : isAbs fn = true
  · rw [resolvePaths_def cwd [d, resolvePaths cwd [d, lp], fn],
        resolvePaths_def cwd [d, lp, fn], hchain1, hchain2, if_pos hfn, if_pos hfn]
  · rw [resolvePaths_def cwd [d, resolvePaths cwd [d, lp], fn],
        resolvePaths_def cwd [d, lp, fn], hchain1, hchain2, if_neg hfn, if_neg hfn]
    have hA : pathSegs (resolvePaths cwd [d, lp]) =
        normSegs ((absChain cwd [d, lp]).map pathSegs).flatten :=
      pathSegs_renderAbs _ (normSegs_chain_clean cwd [d, lp])
    simp only [List.map_cons, List.map_nil, List.flatten_cons, List.flatten_nil,
      List.append_nil, List.map_append, List.flatten_append]
    rw [hA, normSegs_norm_append]

/-- The destination of the resize branches, flattened: up to normalisation it is
`resolve(__dirname, localPath, fileName)` — the configured `basePath` plays no
role there. -/
theorem resizeDest_eq (env : Env) (opts : UploadOptions) (fn : String) :
    resizeDest env opts fn = resolvePaths env.cwd [env.dirname, opts.localPath, fn] :=
  resolvePaths_nested env.cwd env.dirname opts.localPath fn

/-! ### Loop characterisations -/

theorem compressResizeLoop_fst (opts : UploadOptions) (s : Sharp) (env : Env) (ts : Nat)
    (file : MulterFile) (bufferData : Buffer) (sizes : List (Nat × Nat)) :
    (compressResizeLoop opts s env ts file bufferData sizes).1 =
      sizes.map fun wh =>
        mkFileData file (ratioFileName file.fieldname wh.1 wh.2 ts)
          (resizeDest env opts (ratioFileName file.fieldname wh.1 wh.2 ts)) := by
  induction sizes with
  | nil => rfl
  | cons wh rest ih =>
    obtain ⟨w, h⟩ := wh
    simp [compressResizeLoop, ih]

theorem resizeLoop_fst (opts : UploadOptions) (s : Sharp) (env : Env) (ts : Nat)
    (file : MulterFile) (bufferData : Buffer) (sizes : List (Nat × Nat)) :
    (resizeLoop opts s env ts file bufferData sizes).1 =
      sizes.map fun wh =>
        mkFileData file (ratioFileName file.fieldname wh.1 wh.2 ts)
          (resizeDest env opts (ratioFileName file.fieldname wh.1 wh.2 ts)) := by
  induction sizes with
  | nil => rfl
  | cons wh rest ih =>
    obtain ⟨w, h⟩ := wh
    simp [resizeLoop, ih]

theorem uploadLoop_fst (opts : UploadOptions) (s : Sharp) (env : Env) (ts : Nat)
    (files : List MulterFile) :
    (uploadLoop opts s env ts files).1 =
      (files.map fun f =>
        if isImageFile f then (processImage opts s env ts f).1 else []).flatten := by
  induction files with
  | nil => rfl
  | cons f rest ih =>
    by_cases hf : isImageFile f <;> simp [uploadLoop, hf, ih]

theorem uploadLoop_filter_isImage (opts : UploadOptions) (s : Sharp) (env : Env) (ts : Nat)
    (files : List MulterFile) :
    uploadLoop opts s env ts (files.filter isImageFile) = uploadLoop opts s env ts files := by
  induction files with
  | nil => rfl
  | cons f rest ih =>
    by_cases hf : isImageFile f <;> simp [List.filter_cons, hf, uploadLoop, ih]

/-! ### Characterisation of the extension filter -/

theorem leadMatch_iff : ∀ (p s : List Char), leadMatch p s = true ↔ ∃ r, s = p ++ r := by
  intro p
  induction p with
  | nil => intro s; simp [leadMatch]
  | cons a as ih =>
    intro s
    cases s with
    | nil =>
      simp [leadMatch]
    | cons b bs =>
      by_cases hab : a = b
      · subst hab
        rw [show leadMatch (a :: as) (a :: bs) = leadMatch as bs by
          simp [leadMatch]]
        rw [ih bs]
        constructor
        · rintro ⟨r, hr⟩; exact ⟨r, by rw [List.cons_append, hr]⟩
        · rintro ⟨r, hr⟩
          rw [List.cons_append, List.cons.injEq] at hr
          exact ⟨r, hr.2⟩
      · rw [show leadMatch (a :: as) (b :: bs) = false by simp [leadMatch, hab]]
        simp only [Bool.false_eq_true, false_iff]
        rintro ⟨r, hr⟩
        rw [List.cons_append, List.cons.injEq] at hr
        exact hab hr.1.symm

theorem subMatch_iff : ∀ (p s : List Char), subMatch p s = true ↔ ∃ l r, s = l ++ p ++ r := by
  intro p s
  induction s with
  | nil =>
    rw [show subMatch p [] = leadMatch p [] from rfl, leadMatch_iff]
    constructor
    · rintro ⟨r, hr⟩; exact ⟨[], r, by simpa using hr⟩
    · rintro ⟨l, r, hr⟩
      simp only [List.append_assoc, List.nil_eq, List.append_eq_nil] at hr
      exact ⟨[], by simp [hr.2.1]⟩
  | cons c rest ih =>
    rw [show subMatch p (c :: rest) = (leadMatch p (c :: rest) || subMatch p rest) from rfl]
    rw [Bool.or_eq_true, leadMatch_iff, ih]
    constructor
    · rintro (⟨r, hr⟩ | ⟨l, r, hr⟩)
      · exact ⟨[], r, by simpa using hr⟩
      · exact ⟨c :: l, r, by simp [hr]⟩
    · rintro ⟨l, r, hr⟩
      cases l with
      | nil => exact Or.inl ⟨r, by simpa using hr⟩
      | cons x xs =>
        simp only [List.cons_append, List.cons.injEq] at hr
        exact Or.inr ⟨xs, r, hr.2⟩

theorem regexOrTest_iff (pats : List String) (s : String) :
    regexOrTest pats s = true ↔
      pats = [] ∨ ∃ p ∈ pats, ∃ l r, s.toList = l ++ p.toList ++ r := by
  simp only [regexOrTest, Bool.or_eq_true, List.isEmpty_iff, List.any_eq_true, subMatch_iff]

theorem fileFilterAccepts_eq (opts : UploadOptions) (file : MulterFile) :
    fileFilterAccepts opts file =
      (regexOrTest (opts.allowExtension.getD defaultExtensions) file.mimetype
        || regexOrTest (opts.allowExtension.getD defaultExtensions) (extPart file.originalname)) := by
  simp only [fileFilterAccepts, fileFilter]
  cases hm : regexOrTest (opts.allowExtension.getD defaultExtensions) file.mimetype <;>
    cases he : regexOrTest (opts.allowExtension.getD defaultExtensions) (extPart file.originalname) <;>
      simp [hm, he]

/-! ### Concrete fixtures -/

def cEnv : Env := { cwd := "/cwd", dirname := "/lib" }

def baseOpts : UploadOptions :=
  { fileCompression := false, fileResizeRatio := none, allowExtension := none,
    imageQuality := 80, basePath := "/base", localPath := "pub" }

def ratioOpts : UploadOptions :=
  { baseOpts with fileCompression := true, fileResizeRatio := some [(10, 20), (30, 40)] }

def txtOpts : UploadOptions :=
  { baseOpts with allowExtension := some ["txt", "png"] }

def pngFile : MulterFile :=
  { fieldname := "img", originalname := "a.png", encoding := "7bit",
    mimetype := "image/png", buffer := [1, 2, 3] }

def jpgFile : MulterFile :=
  { fieldname := "ava", originalname := "b.jpg", encoding := "7bit",
    mimetype := "image/jpeg", buffer := [9] }

def upperPngFile : MulterFile :=
  { fieldname := "img", originalname := "a.PNG", encoding := "7bit",
    mimetype := "application/octet-stream", buffer := [1] }

def txtFile : MulterFile :=
  { fieldname := "doc", originalname := "a.txt", encoding := "7bit",
    mimetype := "text/plain", buffer := [5] }

def exeFile : MulterFile :=
  { fieldname := "x", originalname := "v.exe", encoding := "7bit",
    mimetype := "application/zip", buffer := [] }

def c7Files : List MulterFile := [pngFile, jpgFile]

def c7Res : OkResult := { data := (uploadLoop ratioOpts jsharp cEnv 7 c7Files).1, code := 200 }

def c7Log : WriteLog := (uploadLoop ratioOpts jsharp cEnv 7 c7Files).2

def c3rec : FileData :=
  { fieldname := "img", originalname := "a.png", encoding := "7bit",
    mimetype := "image/png", filename := "img_10x20_7.jpeg",
    destination := "/lib/pub/img_10x20_7.jpeg" }

def c9Opts : UploadOptions :=
  mkOptions { imageQuality := some 150, localPath := some "pub", basePath := some "/b" } "/cwd"

def emptyAllowIn : UploadOptionsIn :=
  { allowExtension := some [], localPath := some "p", basePath := some "/b" }

/-! ### Claims -/

/-- C1 (confirmed): for every image file part processed, the number of
`FileData` records `processImage` produces equals the length of the configured
`fileResizeRatio` list when one is configured (the empty list included), and is
exactly 1 otherwise, regardless of the `fileCompression` flag. -/
theorem claim1_record_count (opts : UploadOptions) (s : Sharp) (env : Env) (ts : Nat)
    (file : MulterFile) :
    ((processImage opts s env ts file).1).length =
      match opts.fileResizeRatio with
      | some sizes => sizes.length
      | none => 1 := by
  cases hr : opts.fileResizeRatio with
  | none => cases hc : opts.fileCompression <;> simp [processImage, hr, hc]
  | some sizes =>
    cases hc : opts.fileCompression <;>
      simp [processImage, hr, hc, compressResizeLoop_fst, resizeLoop_fst]

/-- C2, counterexample: with neither compression nor resize ratios configured,
exactly one record is produced, but the bytes written are the codec's `toFile`
re-encoding of the buffer, not the original bytes: under the concrete codec
`jsharp` the single write holds `[0, 1, 2, 3]` while the input buffer is
`[1, 2, 3]`, so the round-trip identity claimed fails. -/
theorem claim2_counterexample :
    ((processImage baseOpts jsharp cEnv 7 pngFile).1).length = 1 ∧
    ((processImage baseOpts jsharp cEnv 7 pngFile).2).map Prod.snd = [[0, 1, 2, 3]] ∧
    pngFile.buffer = [1, 2, 3] ∧
    ¬ ((processImage baseOpts jsharp cEnv 7 pngFile).2).map Prod.snd = [pngFile.buffer] := by
  refine ⟨rfl, rfl, rfl, ?_⟩
  decide

/-- C2 (amended): when `fileCompression` is false and no `fileResizeRatio` is
configured, exactly one `FileData` record is produced, and the bytes written
to its destination are the output of `sharp(buffer).toFile(destination)` on
the original input bytes — the write is routed through the codec, which infers
the output format from the `.jpeg` destination and re-encodes, so byte
identity with the input is not guaranteed. -/
theorem claim2_passthrough_amended (opts : UploadOptions) (s : Sharp) (env : Env)
    (ts : Nat) (file : MulterFile) (hc : opts.fileCompression = false)
    (hr : opts.fileResizeRatio = none) :
    processImage opts s env ts file =
      ([mkFileData file (singleFileName file.fieldname ts)
          (resolvePaths env.cwd [opts.basePath, opts.localPath, singleFileName file.fieldname ts])],
       [(resolvePaths env.cwd [opts.basePath, opts.localPath, singleFileName file.fieldname ts],
         s.toFileBytes file.buffer
           (resolvePaths env.cwd [opts.basePath, opts.localPath, singleFileName file.fieldname ts]))]) := by
  simp [processImage, hc, hr]

theorem claim2_witness :
    baseOpts.fileCompression = false ∧ baseOpts.fileResizeRatio = none ∧
    processImage baseOpts jsharp cEnv 7 pngFile =
      ([mkFileData pngFile (singleFileName pngFile.fieldname 7)
          (resolvePaths cEnv.cwd [baseOpts.basePath, baseOpts.localPath, singleFileName pngFile.fieldname 7])],
       [(resolvePaths cEnv.cwd [baseOpts.basePath, baseOpts.localPath, singleFileName pngFile.fieldname 7],
         jsharp.toFileBytes pngFile.buffer
           (resolvePaths cEnv.cwd [baseOpts.basePath, baseOpts.localPath, singleFileName pngFile.fieldname 7]))]) :=
  ⟨rfl, rfl, claim2_passthrough_amended baseOpts jsharp cEnv 7 pngFile rfl rfl⟩

/-- C3, counterexample: in the resize branch the recorded destination is
computed from `__dirname`, not from the configured `basePath`: here the
records carry `/lib/pub/...` while `resolve(basePath, localPath, fileName)` is
`/base/pub/...`. -/
theorem claim3_counterexample :
    ((processImage ratioOpts jsharp cEnv 7 pngFile).1).map FileData.destination =
      ["/lib/pub/img_10x20_7.jpeg", "/lib/pub/img_30x40_7.jpeg"] ∧
    resolvePaths cEnv.cwd [ratioOpts.basePath, ratioOpts.localPath, "img_10x20_7.jpeg"] =
      "/base/pub/img_10x20_7.jpeg" ∧
    ¬ ("/lib/pub/img_10x20_7.jpeg" : String) = "/base/pub/img_10x20_7.jpeg" := by
  refine ⟨rfl, rfl, ?_⟩
  decide

/-- C3 (amended): the destination recorded in a `FileData` equals
`resolve(basePath, localPath, fileName)` only in the single-derivative
branches (compress-only and pass-through); in the resize branches (with or
without compression) it is
`resolve(__dirname, resolve(__dirname, localPath), fileName)`, which collapses
to `resolve(__dirname, localPath, fileName)` — the configured `basePath` is
not used there. -/
theorem claim3_destinations_amended (opts : UploadOptions) (s : Sharp) (env : Env)
    (ts : Nat) (file : MulterFile) (rec : FileData)
    (h : rec ∈ (processImage opts s env ts file).1) :
    rec.destination =
      match opts.fileResizeRatio with
      | some _ => resolvePaths env.cwd [env.dirname, opts.localPath, rec.filename]
      | none => resolvePaths env.cwd [opts.basePath, opts.localPath, rec.filename] := by
  cases hr : opts.fileResizeRatio with
  | none =>
    cases hc : opts.fileCompression <;>
      · simp only [processImage, hr, hc, List.mem_singleton] at h
        subst h
        rfl
  | some sizes =>
    cases hc : opts.fileCompression <;>
      · simp only [processImage, hr, hc, compressResizeLoop_fst, resizeLoop_fst,
          List.mem_map] at h
        obtain ⟨wh, hmem, rfl⟩ := h
        simp [mkFileData, resizeDest_eq]

theorem claim3_witness :
    c3rec ∈ (processImage ratioOpts jsharp cEnv 7 pngFile).1 ∧
    c3rec.destination =
      match ratioOpts.fileResizeRatio with
      | some _ => resolvePaths cEnv.cwd [cEnv.dirname, ratioOpts.localPath, c3rec.filename]
      | none => resolvePaths cEnv.cwd [ratioOpts.basePath, ratioOpts.localPath, c3rec.filename] :=
  ⟨by decide, claim3_destinations_amended ratioOpts jsharp cEnv 7 pngFile c3rec (by decide)⟩

/-- C4, counterexample: the filter does not lowercase the extension. For
`a.PNG` with a non-matching MIME string and the default allow-list, the code
rejects (case-sensitive test of `PNG`), while the claim's predicate — which
matches against the lowercase extension — accepts. -/
theorem claim4_counterexample :
    fileFilterAccepts baseOpts upperPngFile = false ∧
    specFilterAccepts baseOpts upperPngFile = true := by
  exact ⟨rfl, by decide⟩

/-- C4 (amended): the filter accepts a part iff some allow-list entry (default
`jpeg`, `jpg`, `png` when no list is supplied) occurs as a substring of the
file's last dot-separated name piece **as written** (case-sensitively, not
lowercased) or of the MIME string; an empty allow-list matches everything. -/
theorem claim4_filter_amended (opts : UploadOptions) (file : MulterFile) :
    fileFilterAccepts opts file = true ↔
      (opts.allowExtension.getD defaultExtensions = [] ∨
       ∃ e ∈ opts.allowExtension.getD defaultExtensions,
         (∃ l r, (extPart file.originalname).toList = l ++ e.toList ++ r) ∨
         (∃ l r, file.mimetype.toList = l ++ e.toList ++ r)) := by
  rw [fileFilterAccepts_eq, Bool.or_eq_true, regexOrTest_iff, regexOrTest_iff]
  constructor
  · rintro ((h | ⟨p, hp, hlr⟩) | (h | ⟨p, hp, hlr⟩))
    · exact Or.inl h
    · exact Or.inr ⟨p, hp, Or.inr hlr⟩
    · exact Or.inl h
    · exact Or.inr ⟨p, hp, Or.inl hlr⟩
  · rintro (h | ⟨p, hp, h | h⟩)
    · exact Or.inl (Or.inl h)
    · exact Or.inr (Or.inr ⟨p, hp, h⟩)
    · exact Or.inl (Or.inr ⟨p, hp, h⟩)

/-- C5 (confirmed): a request containing any part whose extension and MIME
string match no allow-list substring fails as a whole: the completion callback
receives exactly the filter's `{ data: {}, code: 400 }` error value (through
the callback, not a throw), no records are returned and nothing is written. -/
theorem claim5_rejection (opts : UploadOptions) (s : Sharp) (env : Env) (ts : Nat)
    (files : List MulterFile)
    (h : ∃ f ∈ files, fileFilterAccepts opts f = false) :
    uploadFiles opts s env ts files = (Except.error { data := [], code := 400 }, []) := by
  obtain ⟨f, hf, hrej⟩ := h
  have hall : files.all (fun g => fileFilterAccepts opts g) = false := by
    cases hA : files.all (fun g => fileFilterAccepts opts g)
    · rfl
    · exact absurd (List.all_eq_true.mp hA f hf) (by simp [hrej])
  simp [uploadFiles, hall]

theorem claim5_witness :
    (∃ f ∈ [exeFile], fileFilterAccepts baseOpts f = false) ∧
    uploadFiles baseOpts jsharp cEnv 7 [exeFile] =
      (Except.error { data := [], code := 400 }, []) :=
  ⟨⟨exeFile, List.mem_cons_self _ _, rfl⟩,
   claim5_rejection baseOpts jsharp cEnv 7 [exeFile]
     ⟨exeFile, List.mem_cons_self _ _, rfl⟩⟩

/-- C6, counterexample: a decoded, accepted non-image part produces no record
at all — the request succeeds with an empty data array, not with one
pass-through record as claimed. -/
theorem claim6_counterexample :
    isImageFile txtFile = false ∧
    fileFilterAccepts txtOpts txtFile = true ∧
    uploadFiles txtOpts jsharp cEnv 7 [txtFile] =
      (Except.ok { data := [], code := 200 }, []) :=
  ⟨rfl, rfl, rfl⟩

/-- C6 (amended): non-image parts contribute nothing to the returned sequence —
the pass-through name `{field}_{timestamp}.{originalExtension}` is assigned
only to the mutable file object and discarded — so on an accepted request the
result equals the result for the image parts alone. -/
theorem claim6_nonimage_amended (opts : UploadOptions) (s : Sharp) (env : Env)
    (ts : Nat) (files : List MulterFile)
    (h : files.all (fun f => fileFilterAccepts opts f) = true) :
    uploadFiles opts s env ts files =
      uploadFiles opts s env ts (files.filter isImageFile) := by
  have h2 : (files.filter isImageFile).all (fun f => fileFilterAccepts opts f) = true :=
    List.all_eq_true.mpr fun x hx =>
      List.all_eq_true.mp h x (List.mem_filter.mp hx).1
  simp [uploadFiles, h, h2, uploadLoop_filter_isImage]

theorem claim6_witness :
    ([txtFile, pngFile].all (fun f => fileFilterAccepts txtOpts f) = true) ∧
    uploadFiles txtOpts jsharp cEnv 7 [txtFile, pngFile] =
      uploadFiles txtOpts jsharp cEnv 7 ([txtFile, pngFile].filter isImageFile) :=
  ⟨rfl, claim6_nonimage_amended txtOpts jsharp cEnv 7 [txtFile, pngFile] rfl⟩

/-- C7 (confirmed): on a successful call the returned data is the
concatenation, in request order, of each image file's record block, and within
one file's block the records follow the declared order of the resize ratios:
the j-th record carries the j-th ratio's name. -/
theorem claim7_ordering (opts : UploadOptions) (s : Sharp) (env : Env) (ts : Nat)
    (files : List MulterFile) (res : OkResult) (log : WriteLog) (f : MulterFile)
    (sizes : List (Nat × Nat))
    (h : uploadFiles opts s env ts files = (Except.ok res, log))
    (hs : opts.fileResizeRatio = some sizes) (hf : f ∈ files) :
    res.data = (files.map fun g =>
        if isImageFile g then (processImage opts s env ts g).1 else []).flatten ∧
    ((processImage opts s env ts f).1).map FileData.filename =
      sizes.map fun wh => ratioFileName f.fieldname wh.1 wh.2 ts := by
  constructor
  · by_cases hall : files.all (fun g => fileFilterAccepts opts g) = true
    · rw [uploadFiles, if_pos hall] at h
      injection h with h1 h2
      injection h1 with h1
      rw [← h1]
      exact uploadLoop_fst opts s env ts files
    · rw [uploadFiles, if_neg hall] at h
      simp at h
  · cases hc : opts.fileCompression <;>
      simp [processImage, hs, hc, compressResizeLoop_fst, resizeLoop_fst,
        List.map_map, Function.comp, mkFileData]

theorem claim7_witness :
    uploadFiles ratioOpts jsharp cEnv 7 c7Files = (Except.ok c7Res, c7Log) ∧
    ratioOpts.fileResizeRatio = some [(10, 20), (30, 40)] ∧
    pngFile ∈ c7Files ∧
    (c7Res.data = (c7Files.map fun g =>
        if isImageFile g then (processImage ratioOpts jsharp cEnv 7 g).1 else []).flatten ∧
     ((processImage ratioOpts jsharp cEnv 7 pngFile).1).map FileData.filename =
       [(10, 20), (30, 40)].map fun wh => ratioFileName pngFile.fieldname wh.1 wh.2 7) :=
  ⟨rfl, rfl, List.mem_cons_self _ _,
   claim7_ordering ratioOpts jsharp cEnv 7 c7Files c7Res c7Log pngFile [(10, 20), (30, 40)]
     rfl rfl (List.mem_cons_self _ _)⟩

/-- C8 (confirmed): each ratio derivative is named
`{field}_{width}x{height}_{timestamp}.jpeg`, and the single derivative of the
compress-only and pass-through branches is named `{field}_{timestamp}.jpeg`;
the output extension is the fixed `.jpeg` in every case. -/
theorem claim8_filenames (opts : UploadOptions) (s : Sharp) (env : Env) (ts : Nat)
    (file : MulterFile) :
    ((processImage opts s env ts file).1).map FileData.filename =
      match opts.fileResizeRatio with
      | some sizes => sizes.map fun wh => ratioFileName file.fieldname wh.1 wh.2 ts
      | none => [singleFileName file.fieldname ts] := by
  cases hr : opts.fileResizeRatio with
  | none => cases hc : opts.fileCompression <;> simp [processImage, hr, hc, mkFileData]
  | some sizes =>
    cases hc : opts.fileCompression <;>
      simp [processImage, hr, hc, compressResizeLoop_fst, resizeLoop_fst,
        List.map_map, Function.comp, mkFileData]

/-- C9, counterexample: quality 150 — outside [1,100] — is stored unchanged by
the constructor: it is neither clamped into the range nor rejected
(construction is total and always succeeds). -/
theorem claim9_counterexample :
    c9Opts.imageQuality = 150 ∧
    ¬ (1 ≤ c9Opts.imageQuality ∧ c9Opts.imageQuality ≤ 100) := by
  refine ⟨rfl, ?_⟩
  decide

/-- C9 (amended): the constructor applies no validation to `imageQuality`: any
supplied value is stored unchanged (so the boundary values 1 and 100 are
accepted unchanged, and so is any out-of-range value), and the default 80 is
used exactly when the option is absent. -/
theorem claim9_quality_amended (o : UploadOptionsIn) (cwd : String) :
    (mkOptions o cwd).imageQuality =
      match o.imageQuality with
      | some q => q
      | none => 80 := by
  cases h : o.imageQuality <;> simp [mkOptions, h]

/-- C10 (confirmed): when `allowExtension` is supplied as the empty list the
constructor keeps it (an empty array is truthy, so the `jpeg/jpg/png` default
is not substituted) and the filter's pattern degenerates to the empty
alternation `()` matching every string, so every file part is accepted. -/
theorem claim10_empty_allowlist (o : UploadOptionsIn) (cwd : String) (file : MulterFile)
    (h : o.allowExtension = some []) :
    fileFilterAccepts (mkOptions o cwd) file = true := by
  rw [fileFilterAccepts_eq]
  simp [mkOptions, h, regexOrTest]

theorem claim10_witness :
    emptyAllowIn.allowExtension = some [] ∧
    fileFilterAccepts (mkOptions emptyAllowIn "/c") exeFile = true :=
  ⟨rfl, claim10_empty_allowlist emptyAllowIn "/c" exeFile rfl⟩

end ImgCompress
